import Mathlib

/-!
Verification of the Heka IOBridge streaming transfer core
(src/symphony-core/HekaIOBridge/HekaIOBridge.{h,cpp}).

The C++/CLI code is shallowly embedded: machine integers become `Nat`/`Int`
(the source validates `nsamples ≥ 0` before any arithmetic, and the progress
counters only grow, so no wrap-around is reachable in the modelled range),
hardware interaction becomes an explicit per-iteration environment
(`IterEnv`) supplying what each vendor call would return, and every vendor
call issued is recorded in an event trace.  Exceptions become an error type.
-/

namespace Heka

/-- `IOBridge::TRANSFER_BLOCK_SAMPLES` (HekaIOBridge.h line 55). -/
def TRANSFER_BLOCK_SAMPLES : Nat := 512

/-- Success sentinel of the vendor driver (`0acqerrors.h`, external header):
all call sites compare `err != ACQ_SUCCESS`. -/
def ACQ_SUCCESS : Int := 0

/-- Running-mode bit tested by `CheckStatus` (vendor header `itcmm.h`,
external to this repository; the exact numeric value is immaterial to every
claim, only that the masks are fixed bit patterns). -/
def RUN_STATE : Nat := 0x10

/-- Error bit of the running-mode mask (vendor header `itcmm.h`). -/
def ERROR_STATE : Nat := 0x80000000

/-- Hardware read-overflow bit of the overflow mask (vendor header). -/
def ITC_READ_OVERFLOW_H : Nat := 0x1

/-- Hardware write-underrun bit of the overflow mask (vendor header). -/
def ITC_WRITE_UNDERRUN_H : Nat := 0x2

/-- Software read-overflow bit of the overflow mask (vendor header). -/
def ITC_READ_OVERFLOW_S : Nat := 0x10000

/-- Software write-underrun bit of the overflow mask (vendor header). -/
def ITC_WRITE_UNDERRUN_S : Nat := 0x20000

/-- Device-family output channel capacity `ITC00_NUMBEROFOUTPUTS`
(vendor header `itcmm.h`; the value is a fixed positive constant, 16 here;
no claim depends on the particular number). -/
def ITC00_NUMBEROFOUTPUTS : Nat := 16

/-- Device-family input channel capacity `ITC00_NUMBEROFINPUTS`. -/
def ITC00_NUMBEROFINPUTS : Nat := 16

/-- `Heka::ChannelIdentifier` (HekaIOBridge.h lines 24-50): channel number,
direction/type, and the mutable running count of samples transferred. -/
structure ChannelIdentifier where
  ChannelNumber : Nat
  ChannelType : Nat
  Samples : Int
deriving DecidableEq, Repr

/-- `ChannelIdentifier::Equals` (HekaIOBridge.h lines 32-43): equality on
`(ChannelNumber, ChannelType)` only; `Samples` is not part of identity. -/
def ChannelIdentifier.Equals (a b : ChannelIdentifier) : Bool :=
  a.ChannelNumber == b.ChannelNumber && a.ChannelType == b.ChannelType

/-- `ITCStatus` as read by `ITC_GetState`: the running-mode bitmask and the
overflow/underrun bitmask (the two fields `CheckStatus` inspects). -/
structure ITCStatus where
  RunningMode : Nat
  Overflow : Nat
deriving DecidableEq, Repr

/-- Which of the two validation-style exception groups a `HekaDAQException`
belongs to; the source distinguishes them only by message text, listed here
as constructors. -/
inductive ValidationKind where
  /-- "nsamples may not be less than zero." -/
  | negativeSamples
  /-- "Too many output channels" -/
  | tooManyOutputChannels
  /-- "Too many input channels" -/
  | tooManyInputChannels
  /-- "Output stream number exceeds output stream availability." -/
  | outputStreamAvailability
  /-- "Input stream count exceeds input stream availability." -/
  | inputStreamAvailability
  /-- "Output not correct length" -/
  | outputLength
  /-- "Preload sample buffers must be homogenous in length" -/
  | lengthMismatch
deriving DecidableEq, Repr

/-- Which vendor call a wrapped vendor error code came from. -/
inductive DaqCall where
  | getState
  | readWriteFIFO
deriving DecidableEq, Repr

/-- The exceptions the bridge throws: parameter validation failures,
`HekaDAQException(msg, err)` wrapping a vendor error code, and the
`CheckStatus` fault carrying the running-mode and overflow bitmasks. -/
inductive HekaError where
  | validation (k : ValidationKind)
  | daqErr (call : DaqCall) (code : Int)
  | deviceFault (runningMode overflow : Nat)
deriving DecidableEq, Repr

/-- The fatal-status predicate of `CheckStatus` (HekaIOBridge.cpp lines
99-102), exactly as the source writes it: not running, or (error and a
write-underrun bit), or (error and a read-overflow bit). -/
def statusFatal (status : ITCStatus) : Prop :=
  status.RunningMode &&& RUN_STATE = 0 ∨
  (status.RunningMode &&& ERROR_STATE ≠ 0 ∧
    status.Overflow &&& (ITC_WRITE_UNDERRUN_H ||| ITC_WRITE_UNDERRUN_S) ≠ 0) ∨
  (status.RunningMode &&& ERROR_STATE ≠ 0 ∧
    status.Overflow &&& (ITC_READ_OVERFLOW_H ||| ITC_READ_OVERFLOW_S) ≠ 0)

instance (status : ITCStatus) : Decidable (statusFatal status) := by
  unfold statusFatal
  infer_instance

/-- `CheckStatus` (HekaIOBridge.cpp lines 92-114).  The call-by-value
`ITCStatus` argument is filled by `ITC_GetState`; the embedding therefore
takes the fetched status and the fetch's own error code as inputs. -/
def CheckStatus (getStateErr : Int) (status : ITCStatus) : Except HekaError Unit :=
  if getStateErr ≠ ACQ_SUCCESS then
    .error (.daqErr .getState getStateErr)
  else if statusFatal status then
    .error (.deviceFault status.RunningMode status.Overflow)
  else
    .ok ()

/-- The fatal condition as the specification words it: RUN bit clear, or
ERROR bit set and the overflow mask indicates a write underrun (hardware or
software), or ERROR bit set and the overflow mask indicates a read overflow
(hardware or software). -/
def fatalPerSpec (status : ITCStatus) : Prop :=
  status.RunningMode &&& RUN_STATE = 0 ∨
  (status.RunningMode &&& ERROR_STATE ≠ 0 ∧
    (status.Overflow &&& ITC_WRITE_UNDERRUN_H ≠ 0 ∨
     status.Overflow &&& ITC_WRITE_UNDERRUN_S ≠ 0)) ∨
  (status.RunningMode &&& ERROR_STATE ≠ 0 ∧
    (status.Overflow &&& ITC_READ_OVERFLOW_H ≠ 0 ∨
     status.Overflow &&& ITC_READ_OVERFLOW_S ≠ 0))

instance (status : ITCStatus) : Decidable (fatalPerSpec status) := by
  unfold fatalPerSpec
  infer_instance

/-- Testing a value against an or-ed pair of masks is the same as testing it
against each mask separately. -/
theorem land_lor_eq_zero_iff (n a b : Nat) :
    n &&& (a ||| b) = 0 ↔ (n &&& a = 0 ∧ n &&& b = 0) := by
  rw [Nat.and_or_distrib_left]
  constructor
  · intro h
    have ha : ∀ i, (n &&& a).testBit i = false := by
      intro i
      have hbit := congrArg (fun m => m.testBit i) h
      simp only [Nat.testBit_lor, Nat.zero_testBit, Bool.or_eq_false_iff] at hbit
      exact hbit.1
    have hb : ∀ i, (n &&& b).testBit i = false := by
      intro i
      have hbit := congrArg (fun m => m.testBit i) h
      simp only [Nat.testBit_lor, Nat.zero_testBit, Bool.or_eq_false_iff] at hbit
      exact hbit.2
    exact ⟨Nat.eq_of_testBit_eq fun i => by simp [ha i],
           Nat.eq_of_testBit_eq fun i => by simp [hb i]⟩
  · rintro ⟨h1, h2⟩
    rw [h1, h2]
    rfl

/-- The source's combined-mask test agrees with the specification's spelled
out disjunction. -/
theorem statusFatal_iff_fatalPerSpec (status : ITCStatus) :
    statusFatal status ↔ fatalPerSpec status := by
  unfold statusFatal fatalPerSpec
  have hu := land_lor_eq_zero_iff status.Overflow ITC_WRITE_UNDERRUN_H ITC_WRITE_UNDERRUN_S
  have ho := land_lor_eq_zero_iff status.Overflow ITC_READ_OVERFLOW_H ITC_READ_OVERFLOW_S
  constructor
  · rintro (h | ⟨he, hm⟩ | ⟨he, hm⟩)
    · exact Or.inl h
    · refine Or.inr (Or.inl ⟨he, ?_⟩)
      by_contra hc
      push_neg at hc
      exact hm (hu.mpr ⟨hc.1, hc.2⟩)
    · refine Or.inr (Or.inr ⟨he, ?_⟩)
      by_contra hc
      push_neg at hc
      exact hm (ho.mpr ⟨hc.1, hc.2⟩)
  · rintro (h | ⟨he, hm | hm⟩ | ⟨he, hm | hm⟩)
    · exact Or.inl h
    · exact Or.inr (Or.inl ⟨he, fun hz => hm (hu.mp hz).1⟩)
    · exact Or.inr (Or.inl ⟨he, fun hz => hm (hu.mp hz).2⟩)
    · exact Or.inr (Or.inr ⟨he, fun hz => hm (ho.mp hz).1⟩)
    · exact Or.inr (Or.inr ⟨he, fun hz => hm (ho.mp hz).2⟩)

/-- C2: for a successfully fetched device status, `CheckStatus` raises a
`DeviceFault` exception if and only if the running-mode RUN bit is clear, or
the ERROR bit is set together with a write-underrun bit (hardware or
software), or the ERROR bit is set together with a read-overflow bit
(hardware or software); in every other status it returns without error. -/
theorem checkStatus_deviceFault_iff (status : ITCStatus) :
    (CheckStatus ACQ_SUCCESS status =
        .error (.deviceFault status.RunningMode status.Overflow) ↔
      fatalPerSpec status) ∧
    (¬ fatalPerSpec status → CheckStatus ACQ_SUCCESS status = .ok ()) := by
  unfold CheckStatus
  simp only [ne_eq, not_true_eq_false, if_false, ite_not, if_true]
  constructor
  · constructor
    · intro h
      by_cases hf : statusFatal status
      · exact (statusFatal_iff_fatalPerSpec status).mp hf
      · simp [hf] at h
    · intro h
      have hf := (statusFatal_iff_fatalPerSpec status).mpr h
      simp [hf]
  · intro h
    have hf := fun hc => h ((statusFatal_iff_fatalPerSpec status).mp hc)
    rw [if_neg hf]

/-- Concrete instantiation of `checkStatus_deviceFault_iff`: an all-zero
status (RUN bit clear) faults, a clean running status does not. -/
theorem checkStatus_deviceFault_iff_witness :
    CheckStatus ACQ_SUCCESS ⟨0, 0⟩ = .error (.deviceFault 0 0) ∧
    CheckStatus ACQ_SUCCESS ⟨RUN_STATE, 0⟩ = .ok () :=
  ⟨(checkStatus_deviceFault_iff ⟨0, 0⟩).1.mpr (by decide),
   (checkStatus_deviceFault_iff ⟨RUN_STATE, 0⟩).2 (by decide)⟩

/-- One `ITC_ReadWriteFIFO` bulk-write call issued by `WriteOutput`: the
preload command flag and the per-channel `Value` (sample count) fields. -/
structure FifoWrite where
  preload : Bool
  values : List Nat
deriving DecidableEq, Repr

/-- `IOBridge::WriteOutput` (HekaIOBridge.cpp lines 37-89).  The output
dictionary is embedded as its key-ordered association list.  Returns the
call's outcome together with the list of vendor transfer calls issued:
empty output is a no-op; otherwise every sequence length is compared with
the first key's length (throwing on the first mismatch, before any vendor
call), each channel's `Value` is set to that common length, and exactly one
combined `ITC_ReadWriteFIFO` call is issued, whose vendor result is
`fifoErr`. -/
def WriteOutput (output : List (ChannelIdentifier × List Int)) (preload : Bool)
    (fifoErr : Int) : Except HekaError Unit × List FifoWrite :=
  match output with
  | [] => (.ok (), [])
  | (_, v0) :: _ =>
    if output.all (fun p => p.2.length == v0.length) then
      (if fifoErr = ACQ_SUCCESS then .ok ()
       else .error (.daqErr .readWriteFIFO fifoErr),
       [⟨preload, output.map (fun _ => v0.length)⟩])
    else
      (.error (.validation .lengthMismatch), [])

/-- `IOBridge::Preload` (HekaIOBridge.cpp lines 27-30). -/
def Preload (output : List (ChannelIdentifier × List Int)) (fifoErr : Int) :
    Except HekaError Unit × List FifoWrite :=
  WriteOutput output true fifoErr

/-- `IOBridge::Write` (HekaIOBridge.cpp lines 32-35). -/
def Write (output : List (ChannelIdentifier × List Int)) (fifoErr : Int) :
    Except HekaError Unit × List FifoWrite :=
  WriteOutput output false fifoErr

/-- C7: a `Preload` or `Write` call whose non-empty output mapping contains
two channel sequences of different lengths fails with the length-mismatch
error and issues zero vendor calls. -/
theorem writeOutput_length_mismatch_no_vendor_calls
    (output : List (ChannelIdentifier × List Int)) (fifoErr : Int)
    (hhet : ∃ p ∈ output, ∃ q ∈ output, p.2.length ≠ q.2.length) :
    Preload output fifoErr = (.error (.validation .lengthMismatch), []) ∧
    Write output fifoErr = (.error (.validation .lengthMismatch), []) := by
  obtain ⟨p, hp, q, hq, hpq⟩ := hhet
  have hmain : ∀ preload : Bool,
      WriteOutput output preload fifoErr =
        (.error (.validation .lengthMismatch), []) := by
    intro preload
    match houtput : output with
    | [] => simp [houtput] at hp
    | (c0, v0) :: rest =>
      subst houtput
      have hnotall :
          (((c0, v0) :: rest).all fun r => r.2.length == v0.length) = false := by
        by_contra hc
        rw [Bool.not_eq_false, List.all_eq_true] at hc
        have h1 := hc p hp
        have h2 := hc q hq
        rw [beq_iff_eq] at h1 h2
        exact hpq (h1.trans h2.symm)
      simp [WriteOutput, hnotall]
  exact ⟨hmain true, hmain false⟩

/-- Concrete instantiation of `writeOutput_length_mismatch_no_vendor_calls`:
two channels with sequence lengths 1 and 0. -/
theorem writeOutput_length_mismatch_no_vendor_calls_witness :
    Preload [(⟨0, 1, 0⟩, [7]), (⟨1, 1, 0⟩, [])] 0 =
      (.error (.validation .lengthMismatch), []) ∧
    Write [(⟨0, 1, 0⟩, [7]), (⟨1, 1, 0⟩, [])] 0 =
      (.error (.validation .lengthMismatch), []) :=
  writeOutput_length_mismatch_no_vendor_calls
    [(⟨0, 1, 0⟩, [7]), (⟨1, 1, 0⟩, [])] 0
    ⟨(⟨0, 1, 0⟩, [7]), by simp, (⟨1, 1, 0⟩, []), by simp, by decide⟩

/-- Transfer direction of a channel group. -/
inductive Dir where
  | input
  | output
deriving DecidableEq, Repr

/-- One vendor call issued by the transfer loop, in program order:
`ITC_GetState` (inside `CheckStatus`), `ITC_UpdateNow`,
`ITC_GetDataAvailable` for one direction (with the channel count passed),
and `ITC_ReadWriteFIFO` for one direction (with the per-channel `Value`
sample counts of the combined transfer). -/
inductive Event where
  | getStateCall
  | updateNowCall
  | getAvailableCall (d : Dir) (count : Nat)
  | fifoTransferCall (d : Dir) (values : List Nat)
deriving DecidableEq, Repr

/-- What the hardware would answer during one loop iteration: the
cancellation token's value at the iteration's poll, the `ITC_GetState`
result, the per-channel `ITC_GetDataAvailable` answers and return codes for
each direction, the samples an input `ITC_ReadWriteFIFO` would deliver, and
the return codes of the two possible `ITC_ReadWriteFIFO` calls.  (The
source assigns the `ITC_GetDataAvailable` return code to `err` but never
tests it — `inAvailErr`/`outAvailErr` are likewise never read below.) -/
structure IterEnv where
  cancelled : Bool
  getStateErr : Int
  status : ITCStatus
  inAvail : List Nat
  inAvailErr : Int
  inFifoErr : Int
  inData : List (List Int)
  outAvail : List Nat
  outAvailErr : Int
  outFifoErr : Int

/-- Per-call constants of the transfer loop: the validated sample target,
`transferBlock = min(nsamples, TRANSFER_BLOCK_SAMPLES)` (HekaIOBridge.cpp
line 183), and the lengths of the caller's output sequences. -/
structure LoopParams where
  nsamples : Nat
  transferBlock : Nat
  outLens : List Nat

/-- Mutable state of the transfer loop: the two progress counters, the
caller's input channel list (whose `Samples` fields the loop updates in
place), and the per-channel input scratch vectors `inputSamples`. -/
structure LoopState where
  nIn : Nat
  nOut : Nat
  input : List ChannelIdentifier
  inputSamples : List (List Int)

/-- Input-direction `Value` clamping (HekaIOBridge.cpp lines 213-220): a
channel whose available count reaches the transfer block is clamped to the
block, any other channel is marked 0 for this iteration. -/
def inAvailValues (P : LoopParams) (env : IterEnv) (n : Nat) : List Nat :=
  (List.range n).map fun i =>
    if P.transferBlock ≤ env.inAvail.getD i 0 then P.transferBlock else 0

/-- The `inBlockAvailable` flag (HekaIOBridge.cpp lines 212-220): set when
some input channel has at least a transfer block available. -/
def inBlockAvailable (P : LoopParams) (env : IterEnv) (n : Nat) : Bool :=
  (List.range n).any fun i => decide (P.transferBlock ≤ env.inAvail.getD i 0)

/-- Output-direction `Value` clamping (HekaIOBridge.cpp lines 243-253):
clamp to the transfer block, then clamp the final block to the channel's
remaining unsent samples. -/
def outAvailValues (P : LoopParams) (env : IterEnv) (nOut : Nat) : List Nat :=
  (List.range P.outLens.length).map fun i =>
    if P.transferBlock ≤ env.outAvail.getD i 0 then
      if P.outLens.getD i 0 ≤ nOut + P.transferBlock then P.outLens.getD i 0 - nOut
      else P.transferBlock
    else 0

/-- The `outBlockAvailable` flag (HekaIOBridge.cpp lines 242-253): set when
some output channel has at least a transfer block of FIFO space. -/
def outBlockAvailable (P : LoopParams) (env : IterEnv) : Bool :=
  (List.range P.outLens.length).any fun i =>
    decide (P.transferBlock ≤ env.outAvail.getD i 0)

/-- `input[i] = c` with `c.Samples += inputData[i].Value` for every input
channel (HekaIOBridge.cpp lines 233-237). -/
def bumpSamples : List ChannelIdentifier → List Nat → List ChannelIdentifier
  | [], _ => []
  | cs, [] => cs
  | c :: cs, v :: vs =>
    { c with Samples := c.Samples + (v : Int) } :: bumpSamples cs vs

/-- Overwrite `data.length` cells of `buf` starting at `off` (the effect of
a bulk read through `DataPointer = inputSamples[i].data() + nIn`). -/
def writeAt (buf : List Int) (off : Nat) (data : List Int) : List Int :=
  buf.take off ++ data ++ buf.drop (off + data.length)

/-- The input `ITC_ReadWriteFIFO` call's effect on the scratch vectors:
channel `i` receives `vals[i]` samples of `data[i]` at offset `off`
(HekaIOBridge.cpp lines 222-231). -/
def writeScratch (off : Nat) :
    List (List Int) → List (List Int) → List Nat → List (List Int)
  | [], _, _ => []
  | b :: bs, d :: ds, v :: vs => writeAt b off (d.take v) :: writeScratch off bs ds vs
  | bs, _, _ => bs

/-- Result of one body execution of the transfer loop: a completed
iteration with its new state and vendor calls, the cancellation `break`, or
a thrown exception (with the vendor calls issued up to the throw). -/
inductive StepOut where
  | stepped (s : LoopState) (evs : List Event)
  | stopCancel
  | stopErr (e : HekaError) (evs : List Event)

/-- Output half of one loop iteration (HekaIOBridge.cpp lines 240-268):
query output FIFO space, clamp, and if a block fits and `nOut < nsamples`
issue the combined bulk write and advance `nOut` by the whole transfer
block (also after a clamped final block). -/
def outputPhase (P : LoopParams) (env : IterEnv) (s : LoopState)
    (evs : List Event) : StepOut :=
  if outBlockAvailable P env then
    if s.nOut < P.nsamples then
      if env.outFifoErr = ACQ_SUCCESS then
        .stepped { s with nOut := s.nOut + P.transferBlock }
          (evs ++ [Event.getAvailableCall .output P.outLens.length,
                   Event.fifoTransferCall .output (outAvailValues P env s.nOut)])
      else
        .stopErr (.daqErr .readWriteFIFO env.outFifoErr)
          (evs ++ [Event.getAvailableCall .output P.outLens.length,
                   Event.fifoTransferCall .output (outAvailValues P env s.nOut)])
    else
      .stepped s (evs ++ [Event.getAvailableCall .output P.outLens.length])
  else
    .stepped s (evs ++ [Event.getAvailableCall .output P.outLens.length])

/-- One body execution of the transfer loop (HekaIOBridge.cpp lines
199-269): cancellation poll, `CheckStatus`, `ITC_UpdateNow`, the input
availability query and (when a block is available on some channel) the
combined bulk read — advancing `nIn` by the whole transfer block and each
channel's `Samples` by its own clamped `Value` — then the output half. -/
def loopStep (P : LoopParams) (env : IterEnv) (s : LoopState) : StepOut :=
  if env.cancelled then .stopCancel
  else if env.getStateErr ≠ ACQ_SUCCESS then
    .stopErr (.daqErr .getState env.getStateErr) [.getStateCall]
  else if statusFatal env.status then
    .stopErr (.deviceFault env.status.RunningMode env.status.Overflow) [.getStateCall]
  else if inBlockAvailable P env s.input.length then
    if env.inFifoErr = ACQ_SUCCESS then
      outputPhase P env
        { nIn := s.nIn + P.transferBlock,
          nOut := s.nOut,
          input := bumpSamples s.input (inAvailValues P env s.input.length),
          inputSamples :=
            writeScratch s.nIn s.inputSamples env.inData
              (inAvailValues P env s.input.length) }
        [Event.getStateCall, Event.updateNowCall,
         Event.getAvailableCall .input s.input.length,
         Event.fifoTransferCall .input (inAvailValues P env s.input.length)]
    else
      .stopErr (.daqErr .readWriteFIFO env.inFifoErr)
        [Event.getStateCall, Event.updateNowCall,
         Event.getAvailableCall .input s.input.length,
         Event.fifoTransferCall .input (inAvailValues P env s.input.length)]
  else
    outputPhase P env s
      [Event.getStateCall, Event.updateNowCall,
       Event.getAvailableCall .input s.input.length]

/-- The loop condition (HekaIOBridge.cpp line 199):
`(nOut < nsamples && output present) || (nIn < nsamples && input present)`. -/
def loopGuard (P : LoopParams) (s : LoopState) : Prop :=
  (s.nOut < P.nsamples ∧ 0 < P.outLens.length) ∨
  (s.nIn < P.nsamples ∧ 0 < s.input.length)

instance (P : LoopParams) (s : LoopState) : Decidable (loopGuard P s) := by
  unfold loopGuard
  infer_instance

/-- How the transfer loop ended. -/
inductive LoopOutcome where
  | done
  | cancelled
  | errored (e : HekaError)
  | outOfFuel
deriving DecidableEq, Repr

/-- The transfer loop, driven by fuel (the C++ loop can busy-poll forever;
every claim below is stated for runs that end within the given fuel).
`k` indexes the iteration (selecting `envs k`); returns the loop's outcome,
the final state, and the concatenated vendor-call trace. -/
def runLoop (P : LoopParams) (envs : Nat → IterEnv) :
    Nat → Nat → LoopState → LoopOutcome × LoopState × List Event
  | 0, _, s => (.outOfFuel, s, [])
  | fuel + 1, k, s =>
    if loopGuard P s then
      match loopStep P (envs k) s with
      | .stopCancel => (.cancelled, s, [])
      | .stopErr e evs => (.errored e, s, evs)
      | .stepped s2 evs =>
        let r := runLoop P envs fuel (k + 1) s2
        (r.1, r.2.1, evs ++ r.2.2)
    else
      (.done, s, [])

/-- The copy-out of one channel's result (HekaIOBridge.cpp lines 275-279):
an array of exactly `Samples` cells, filled from the scratch vector. -/
def readOut (buf : List Int) (n : Nat) : List Int :=
  (List.range n).map fun j => buf.getD j 0

/-- The .NET `Dictionary` indexer-set used to build the result
(`result[input[i]] = inData`): replace the value of an `Equals`-equal key,
keeping the stored key, else append a new entry. -/
def dictSet (d : List (ChannelIdentifier × List Int)) (k : ChannelIdentifier)
    (v : List Int) : List (ChannelIdentifier × List Int) :=
  match d with
  | [] => [(k, v)]
  | (k0, v0) :: rest =>
    if k0.Equals k then (k0, v) :: rest else (k0, v0) :: dictSet rest k v

/-- The result dictionary (HekaIOBridge.cpp lines 271-282): one entry per
input channel, truncated to that channel's final running `Samples` count. -/
def buildResult : List ChannelIdentifier → List (List Int) →
    List (ChannelIdentifier × List Int) → List (ChannelIdentifier × List Int)
  | [], _, acc => acc
  | c :: cs, b :: bs, acc => buildResult cs bs (dictSet acc c (readOut b c.Samples.toNat))
  | c :: cs, [], acc => buildResult cs [] (dictSet acc c (readOut [] c.Samples.toNat))

/-- Outcome of `IOBridge::ReadWrite`: a normal return (result dictionary,
the caller's input list as mutated in place, and the final counters), a
thrown exception, or fuel exhaustion of the model's loop driver. -/
inductive RWOutcome where
  | ok (result : List (ChannelIdentifier × List Int))
      (finalInput : List ChannelIdentifier) (nIn nOut : Nat)
  | err (e : HekaError)
  | fuelOut
deriving DecidableEq, Repr

/-- `Heka::IOBridge` (HekaIOBridge.h lines 52-81): the caller-declared
per-direction stream maxima (the device pointer is implicit in `IterEnv`). -/
structure IOBridge where
  maxInputs : Nat
  maxOutputs : Nat

/-- The validation prefix of `IOBridge::ReadWrite` (HekaIOBridge.cpp lines
124-175), in source order; `none` means all checks passed. -/
def validateReadWrite (b : IOBridge) (output : List (ChannelIdentifier × List Int))
    (input : List ChannelIdentifier) (nsamples : Int) : Option ValidationKind :=
  if nsamples < 0 then some .negativeSamples
  else if ITC00_NUMBEROFOUTPUTS ≤ output.length then some .tooManyOutputChannels
  else if ITC00_NUMBEROFINPUTS ≤ input.length then some .tooManyInputChannels
  else if b.maxOutputs < output.length then some .outputStreamAvailability
  else if b.maxInputs < input.length then some .inputStreamAvailability
  else if output.any (fun p => p.2.length != nsamples.toNat) then some .outputLength
  else none

/-- The per-call loop constants of `ReadWrite` (HekaIOBridge.cpp lines
170-197): the validated target, `transferBlock = min(nsamples,
TRANSFER_BLOCK_SAMPLES)` (line 183), and the output sequence lengths. -/
def mkLoopParams (output : List (ChannelIdentifier × List Int)) (nsamples : Int) :
    LoopParams :=
  { nsamples := nsamples.toNat,
    transferBlock := min nsamples.toNat TRANSFER_BLOCK_SAMPLES,
    outLens := output.map fun p => p.2.length }

/-- The loop's initial state (HekaIOBridge.cpp lines 177-187): zero
counters, the caller's input list, and one scratch vector of `2 * nsamples`
cells per input channel. -/
def mkInitState (input : List ChannelIdentifier) (nsamples : Int) : LoopState :=
  { nIn := 0, nOut := 0, input := input,
    inputSamples := input.map fun _ => List.replicate (2 * nsamples.toNat) 0 }

/-- Packaging of the loop's ending (HekaIOBridge.cpp lines 271-284): a
thrown exception propagates; otherwise (normal exit or cancellation `break`)
the result dictionary is copied out of the final state. -/
def finishReadWrite : LoopOutcome × LoopState × List Event → RWOutcome × List Event
  | (.outOfFuel, _, tr) => (.fuelOut, tr)
  | (.errored e, _, tr) => (.err e, tr)
  | (.cancelled, s, tr) =>
    (.ok (buildResult s.input s.inputSamples []) s.input s.nIn s.nOut, tr)
  | (.done, s, tr) =>
    (.ok (buildResult s.input s.inputSamples []) s.input s.nIn s.nOut, tr)

/-- `IOBridge::ReadWrite` (HekaIOBridge.cpp lines 117-285): validation,
`transferBlock = min(nsamples, TRANSFER_BLOCK_SAMPLES)`, input scratch
vectors of `2 * nsamples` cells, the transfer loop, and the result
copy-out.  Returns the outcome and the vendor-call trace. -/
def IOBridge.ReadWrite (b : IOBridge) (output : List (ChannelIdentifier × List Int))
    (input : List ChannelIdentifier) (nsamples : Int) (envs : Nat → IterEnv)
    (fuel : Nat) : RWOutcome × List Event :=
  match validateReadWrite b output input nsamples with
  | some k => (.err (.validation k), [])
  | none =>
    finishReadWrite
      (runLoop (mkLoopParams output nsamples) envs fuel 0 (mkInitState input nsamples))

/-- Samples moved into input channel `i` by the transfers of a trace: the
sum of that channel's `Value` over the input-direction bulk transfers. -/
def movedOf (evs : List Event) (i : Nat) : Nat :=
  (evs.map fun e =>
    match e with
    | .fifoTransferCall .input vals => vals.getD i 0
    | _ => 0).sum

/-- Default channel used for index-default reasoning. -/
def cdef : ChannelIdentifier := ⟨0, 0, 0⟩

theorem bumpSamples_length (cs : List ChannelIdentifier) (vs : List Nat) :
    (bumpSamples cs vs).length = cs.length := by
  induction cs generalizing vs with
  | nil => cases vs <;> rfl
  | cons c cs ih => cases vs with
    | nil => rfl
    | cons v vs => simp [bumpSamples, ih]

theorem bumpSamples_getD (cs : List ChannelIdentifier) (vs : List Nat)
    (hlen : vs.length = cs.length) (i : Nat) :
    ((bumpSamples cs vs).getD i cdef).ChannelNumber = (cs.getD i cdef).ChannelNumber ∧
    ((bumpSamples cs vs).getD i cdef).ChannelType = (cs.getD i cdef).ChannelType ∧
    ((bumpSamples cs vs).getD i cdef).Samples =
      (cs.getD i cdef).Samples + (vs.getD i 0 : Int) := by
  induction cs generalizing vs i with
  | nil =>
    cases vs with
    | nil => simp [bumpSamples, List.getD]
    | cons v vs => simp at hlen
  | cons c cs ih =>
    cases vs with
    | nil => simp at hlen
    | cons v vs =>
      cases i with
      | zero => simp [bumpSamples, List.getD]
      | succ j =>
        have hlen2 : vs.length = cs.length := by simpa using hlen
        simpa [bumpSamples, List.getD] using ih vs hlen2 j

theorem writeScratch_length (off : Nat) (bs ds : List (List Int)) (vs : List Nat) :
    (writeScratch off bs ds vs).length = bs.length := by
  induction bs generalizing ds vs with
  | nil => cases ds <;> cases vs <;> rfl
  | cons b bs ih =>
    cases ds with
    | nil => rfl
    | cons d ds =>
      cases vs with
      | nil => rfl
      | cons v vs => simp [writeScratch, ih]

theorem inAvailValues_length (P : LoopParams) (env : IterEnv) (n : Nat) :
    (inAvailValues P env n).length = n := by
  simp [inAvailValues]

theorem inAvailValues_getD_of_le (P : LoopParams) (env : IterEnv) (n i : Nat)
    (h : n ≤ i) : (inAvailValues P env n).getD i 0 = 0 := by
  have hlen : (inAvailValues P env n).length ≤ i := by
    rw [inAvailValues_length]
    exact h
  simp [List.getD_eq_getElem?_getD, List.getElem?_eq_none hlen]

theorem movedOf_nil (i : Nat) : movedOf [] i = 0 := rfl

theorem movedOf_append (a b : List Event) (i : Nat) :
    movedOf (a ++ b) i = movedOf a i + movedOf b i := by
  simp [movedOf]

theorem movedOf_inBase (n i : Nat) :
    movedOf [Event.getStateCall, Event.updateNowCall,
             Event.getAvailableCall .input n] i = 0 := rfl

theorem movedOf_inTransfer (n : Nat) (vals : List Nat) (i : Nat) :
    movedOf [Event.getStateCall, Event.updateNowCall,
             Event.getAvailableCall .input n,
             Event.fifoTransferCall .input vals] i = vals.getD i 0 := by
  simp [movedOf]

theorem movedOf_outOnly (n i : Nat) :
    movedOf [Event.getAvailableCall .output n] i = 0 := rfl

theorem movedOf_outTransfer (n : Nat) (vals : List Nat) (i : Nat) :
    movedOf [Event.getAvailableCall .output n,
             Event.fifoTransferCall .output vals] i = 0 := rfl

/-- Effect of the output half of an iteration that completes: the input
side of the state is untouched, `nOut` either stays or advances by the full
transfer block (only from below `nsamples`), and the appended events move
no input samples. -/
theorem outputPhase_stepped_spec (P : LoopParams) (env : IterEnv) (s : LoopState)
    (evs : List Event) (s2 : LoopState) (evs2 : List Event)
    (h : outputPhase P env s evs = .stepped s2 evs2) :
    s2.input = s.input ∧ s2.inputSamples = s.inputSamples ∧ s2.nIn = s.nIn ∧
    (s2.nOut = s.nOut ∨ (s.nOut < P.nsamples ∧ s2.nOut = s.nOut + P.transferBlock)) ∧
    ∃ tail, evs2 = evs ++ tail ∧ ∀ i, movedOf tail i = 0 := by
  unfold outputPhase at h
  split at h
  · split at h
    · split at h
      · cases h
        exact ⟨rfl, rfl, rfl, Or.inr ⟨by assumption, rfl⟩,
          ⟨[Event.getAvailableCall .output P.outLens.length,
            Event.fifoTransferCall .output (outAvailValues P env s.nOut)],
           rfl, fun i => rfl⟩⟩
      · cases h
    · cases h
      exact ⟨rfl, rfl, rfl, Or.inl rfl,
        ⟨[Event.getAvailableCall .output P.outLens.length], rfl, fun i => rfl⟩⟩
  · cases h
    exact ⟨rfl, rfl, rfl, Or.inl rfl,
      ⟨[Event.getAvailableCall .output P.outLens.length], rfl, fun i => rfl⟩⟩

/-- The output half can only fail by a bulk-write vendor error. -/
theorem outputPhase_stopErr_spec (P : LoopParams) (env : IterEnv) (s : LoopState)
    (evs : List Event) (e : HekaError) (evs2 : List Event)
    (h : outputPhase P env s evs = .stopErr e evs2) :
    e = .daqErr .readWriteFIFO env.outFifoErr ∧ env.outFifoErr ≠ ACQ_SUCCESS := by
  unfold outputPhase at h
  split at h
  · split at h
    · split at h
      · cases h
      · cases h
        exact ⟨rfl, by assumption⟩
    · cases h
  · cases h

/-- The output half never produces the cancellation stop. -/
theorem outputPhase_ne_stopCancel (P : LoopParams) (env : IterEnv) (s : LoopState)
    (evs : List Event) : outputPhase P env s evs ≠ .stopCancel := by
  unfold outputPhase
  split
  · split
    · split
      · intro h
        cases h
      · intro h
        cases h
    · intro h
      cases h
  · intro h
    cases h

/-- Effect of one completed loop iteration: list lengths are preserved,
each input channel keeps its identity and gains exactly the samples the
iteration's trace moved for it, and each counter either stays or advances
by the full transfer block (`nOut` only from below `nsamples`). -/
theorem loopStep_stepped_spec (P : LoopParams) (env : IterEnv) (s : LoopState)
    (s2 : LoopState) (evs : List Event)
    (h : loopStep P env s = .stepped s2 evs) :
    s2.input.length = s.input.length ∧
    s2.inputSamples.length = s.inputSamples.length ∧
    (s2.nIn = s.nIn ∨ s2.nIn = s.nIn + P.transferBlock) ∧
    (s2.nOut = s.nOut ∨ (s.nOut < P.nsamples ∧ s2.nOut = s.nOut + P.transferBlock)) ∧
    (∀ i, ((s2.input.getD i cdef).ChannelNumber = (s.input.getD i cdef).ChannelNumber ∧
           (s2.input.getD i cdef).ChannelType = (s.input.getD i cdef).ChannelType ∧
           (s2.input.getD i cdef).Samples =
             (s.input.getD i cdef).Samples + (movedOf evs i : Int))) := by
  unfold loopStep at h
  split at h
  · cases h
  · split at h
    · cases h
    · split at h
      · cases h
      · split at h
        · split at h
          · -- input transfer succeeded, then output phase
            obtain ⟨hin, hscr, hnIn, hnOut, tail, htail, hmv⟩ :=
              outputPhase_stepped_spec P env _ _ s2 evs h
            have hvlen : (inAvailValues P env s.input.length).length = s.input.length :=
              inAvailValues_length P env s.input.length
            refine ⟨?_, ?_, ?_, ?_, ?_⟩
            · rw [hin]
              exact bumpSamples_length s.input (inAvailValues P env s.input.length)
            · rw [hscr]
              exact writeScratch_length s.nIn s.inputSamples env.inData
                (inAvailValues P env s.input.length)
            · rw [hnIn]
              exact Or.inr rfl
            · exact hnOut
            · intro i
              have hb := bumpSamples_getD s.input (inAvailValues P env s.input.length)
                hvlen i
              rw [hin]
              refine ⟨hb.1, hb.2.1, ?_⟩
              rw [hb.2.2, htail, movedOf_append, movedOf_inTransfer, hmv i]
              push_cast
              ring
          · cases h
        · -- no input block available, output phase on the unchanged state
          obtain ⟨hin, hscr, hnIn, hnOut, tail, htail, hmv⟩ :=
            outputPhase_stepped_spec P env _ _ s2 evs h
          refine ⟨by rw [hin], by rw [hscr], Or.inl hnIn, hnOut, ?_⟩
          intro i
          rw [hin, htail, movedOf_append, movedOf_inBase, hmv i]
          simp

/-- A thrown iteration never reports a parameter-validation error. -/
theorem loopStep_stopErr_not_validation (P : LoopParams) (env : IterEnv)
    (s : LoopState) (e : HekaError) (evs : List Event)
    (h : loopStep P env s = .stopErr e evs) :
    ∀ k, e ≠ .validation k := by
  unfold loopStep at h
  split at h
  · cases h
  · split at h
    · cases h
      intro k hk
      cases hk
    · split at h
      · cases h
        intro k hk
        cases hk
      · split at h
        · split at h
          · obtain ⟨he, _⟩ := outputPhase_stopErr_spec P env _ _ e evs h
            intro k hk
            rw [he] at hk
            cases hk
          · cases h
            intro k hk
            cases hk
        · obtain ⟨he, _⟩ := outputPhase_stopErr_spec P env _ _ e evs h
          intro k hk
          rw [he] at hk
          cases hk

/-- A cancellation stop happens exactly when the token reads cancelled. -/
theorem loopStep_stopCancel_iff (P : LoopParams) (env : IterEnv) (s : LoopState) :
    loopStep P env s = .stopCancel ↔ env.cancelled = true := by
  unfold loopStep
  constructor
  · intro h
    split at h
    · assumption
    · split at h
      · cases h
      · split at h
        · cases h
        · split at h
          · split at h
            · exact absurd h (outputPhase_ne_stopCancel P env _ _)
            · cases h
          · exact absurd h (outputPhase_ne_stopCancel P env _ _)
  · intro h
    rw [if_pos h]

/-- Run-level bookkeeping: channel-list and scratch lengths and channel
identities are preserved by the whole loop, and — whenever the loop did not
abort on an exception — each channel's `Samples` count grows by exactly the
samples the trace's input transfers moved for it. -/
theorem runLoop_spec (P : LoopParams) (envs : Nat → IterEnv) :
    ∀ (fuel k : Nat) (s : LoopState) (o : LoopOutcome) (s2 : LoopState)
      (tr : List Event), runLoop P envs fuel k s = (o, s2, tr) →
    s2.input.length = s.input.length ∧
    s2.inputSamples.length = s.inputSamples.length ∧
    (∀ i, (s2.input.getD i cdef).ChannelNumber = (s.input.getD i cdef).ChannelNumber ∧
          (s2.input.getD i cdef).ChannelType = (s.input.getD i cdef).ChannelType) ∧
    ((∀ e, o ≠ .errored e) →
      ∀ i, (s2.input.getD i cdef).Samples =
        (s.input.getD i cdef).Samples + (movedOf tr i : Int)) := by
  intro fuel
  induction fuel with
  | zero =>
    intro k s o s2 tr hr
    rw [runLoop] at hr
    cases hr
    exact ⟨rfl, rfl, fun i => ⟨rfl, rfl⟩, fun _ i => by simp [movedOf_nil]⟩
  | succ fuel ih =>
    intro k s o s2 tr hr
    rw [runLoop] at hr
    by_cases hg : loopGuard P s
    · rw [if_pos hg] at hr
      cases hstep : loopStep P (envs k) s with
      | stopCancel =>
        rw [hstep] at hr
        cases hr
        exact ⟨rfl, rfl, fun i => ⟨rfl, rfl⟩, fun _ i => by simp [movedOf_nil]⟩
      | stopErr e evs =>
        rw [hstep] at hr
        cases hr
        exact ⟨rfl, rfl, fun i => ⟨rfl, rfl⟩,
          fun hne i => absurd rfl (hne e)⟩
      | stepped s1 evs =>
        rw [hstep] at hr
        obtain ⟨hlen1, hscr1, hnIn1, hnOut1, hacc1⟩ :=
          loopStep_stepped_spec P (envs k) s s1 evs hstep
        cases hrec : runLoop P envs fuel (k + 1) s1 with
        | mk o2 rest =>
          obtain ⟨s3, tr2⟩ := rest
          obtain ⟨hlen2, hscr2, hid2, hacc2⟩ :=
            ih (k + 1) s1 o2 s3 tr2 hrec
          simp only [hrec] at hr
          cases hr
          refine ⟨hlen2.trans hlen1, hscr2.trans hscr1, ?_, ?_⟩
          · intro i
            exact ⟨(hid2 i).1.trans (hacc1 i).1, (hid2 i).2.trans (hacc1 i).2.1⟩
          · intro hne i
            rw [hacc2 hne i, (hacc1 i).2.2, movedOf_append]
            push_cast
            ring
    · rw [if_neg hg] at hr
      cases hr
      exact ⟨rfl, rfl, fun i => ⟨rfl, rfl⟩, fun _ i => by simp [movedOf_nil]⟩

/-- The loop never aborts with a parameter-validation error. -/
theorem runLoop_not_validation (P : LoopParams) (envs : Nat → IterEnv) :
    ∀ (fuel k : Nat) (s : LoopState) (e : HekaError) (s2 : LoopState)
      (tr : List Event), runLoop P envs fuel k s = (.errored e, s2, tr) →
    ∀ v, e ≠ .validation v := by
  intro fuel
  induction fuel with
  | zero =>
    intro k s e s2 tr hr
    rw [runLoop] at hr
    cases hr
  | succ fuel ih =>
    intro k s e s2 tr hr
    rw [runLoop] at hr
    by_cases hg : loopGuard P s
    · rw [if_pos hg] at hr
      cases hstep : loopStep P (envs k) s with
      | stopCancel =>
        rw [hstep] at hr
        cases hr
      | stopErr e2 evs =>
        rw [hstep] at hr
        cases hr
        exact loopStep_stopErr_not_validation P (envs k) s _ _ hstep
      | stepped s1 evs =>
        rw [hstep] at hr
        cases hrec : runLoop P envs fuel (k + 1) s1 with
        | mk o2 rest =>
          obtain ⟨s3, tr2⟩ := rest
          simp only [hrec] at hr
          cases hr
          exact ih (k + 1) s1 _ _ _ hrec
    · rw [if_neg hg] at hr
      cases hr

theorem readOut_length (buf : List Int) (n : Nat) : (readOut buf n).length = n := by
  simp [readOut]

/-- `Equals` only looks at channel number and type. -/
theorem Equals_congr_left (a b x : ChannelIdentifier)
    (hn : a.ChannelNumber = b.ChannelNumber) (ht : a.ChannelType = b.ChannelType) :
    a.Equals x = b.Equals x := by
  unfold ChannelIdentifier.Equals
  rw [hn, ht]

/-- Setting a key absent from the dictionary appends a new entry. -/
theorem dictSet_fresh (acc : List (ChannelIdentifier × List Int))
    (c : ChannelIdentifier) (v : List Int)
    (hfresh : ∀ p ∈ acc, p.1.Equals c = false) :
    dictSet acc c v = acc ++ [(c, v)] := by
  induction acc with
  | nil => rfl
  | cons p rest ih =>
    obtain ⟨k0, v0⟩ := p
    have h0 : k0.Equals c = false := hfresh (k0, v0) (by simp)
    simp only [dictSet, h0, Bool.false_eq_true, if_false, List.cons_append,
      List.cons.injEq, true_and]
    exact ih fun q hq => hfresh q (by simp [hq])

/-- With pairwise-distinct channels the result dictionary is the input list
in order, each entry truncated to its channel's `Samples` count. -/
theorem buildResult_append (cs : List ChannelIdentifier) (bs : List (List Int))
    (acc : List (ChannelIdentifier × List Int))
    (hdist : cs.Pairwise (fun a b => a.Equals b = false))
    (hlen : bs.length = cs.length)
    (hfresh : ∀ c ∈ cs, ∀ p ∈ acc, p.1.Equals c = false) :
    buildResult cs bs acc =
      acc ++ (cs.zip bs).map (fun cb => (cb.1, readOut cb.2 cb.1.Samples.toNat)) := by
  induction cs generalizing bs acc with
  | nil =>
    cases bs with
    | nil => simp [buildResult]
    | cons b bs => simp at hlen
  | cons c cs ih =>
    cases bs with
    | nil => simp at hlen
    | cons b bs =>
      obtain ⟨hhead, htail⟩ := List.pairwise_cons.mp hdist
      rw [buildResult,
        dictSet_fresh acc c (readOut b c.Samples.toNat)
          (fun p hp => hfresh c (by simp) p hp),
        ih bs (acc ++ [(c, readOut b c.Samples.toNat)]) htail (by simpa using hlen)
          ?_]
      · simp
      · intro c2 hc2 p hp
        rcases List.mem_append.mp hp with hpa | hpc
        · exact hfresh c2 (by simp [hc2]) p hpa
        · have hpc2 : p = (c, readOut b c.Samples.toNat) := by simpa using hpc
          rw [hpc2]
          exact hhead c2 hc2

theorem zipmap_length (cs : List ChannelIdentifier) (bs : List (List Int))
    (hlen : bs.length = cs.length) :
    ((cs.zip bs).map (fun cb => (cb.1, readOut cb.2 cb.1.Samples.toNat))).length =
      cs.length := by
  simp [List.length_zip, hlen]

theorem zipmap_getD (cs : List ChannelIdentifier) (bs : List (List Int)) (i : Nat)
    (hi : i < cs.length) (hlen : bs.length = cs.length) :
    ((cs.zip bs).map (fun cb => (cb.1, readOut cb.2 cb.1.Samples.toNat))).getD i
        (cdef, []) =
      (cs.getD i cdef, readOut (bs.getD i []) (cs.getD i cdef).Samples.toNat) := by
  induction cs generalizing bs i with
  | nil => simp at hi
  | cons c cs ih =>
    cases bs with
    | nil => simp at hlen
    | cons b bs =>
      cases i with
      | zero => simp [List.getD]
      | succ j =>
        have hj : j < cs.length := Nat.lt_of_succ_lt_succ hi
        simpa [List.getD] using ih bs j hj (by simpa using hlen)

/-- A hardware environment that stays healthy and reports the given
per-channel availability every iteration; the two availability-query
return codes are also given (the bulk transfers themselves succeed). -/
def steadyEnv (inAvail outAvail : List Nat) (inAvailErr outAvailErr : Int) : IterEnv :=
  { cancelled := false, getStateErr := ACQ_SUCCESS, status := ⟨RUN_STATE, 0⟩,
    inAvail := inAvail, inAvailErr := inAvailErr, inFifoErr := ACQ_SUCCESS,
    inData := [[]], outAvail := outAvail, outAvailErr := outAvailErr,
    outFifoErr := ACQ_SUCCESS }

/-- An environment whose cancellation token already reads cancelled. -/
def cancelledEnv : IterEnv :=
  { cancelled := true, getStateErr := ACQ_SUCCESS, status := ⟨RUN_STATE, 0⟩,
    inAvail := [], inAvailErr := ACQ_SUCCESS, inFifoErr := ACQ_SUCCESS,
    inData := [], outAvail := [], outAvailErr := ACQ_SUCCESS,
    outFifoErr := ACQ_SUCCESS }

/-- The bulk transfers of one direction in a trace. -/
def fifoCalls (d : Dir) (tr : List Event) : List Event :=
  tr.filter fun e =>
    match e with
    | .fifoTransferCall d2 _ => d2 == d
    | _ => false

set_option maxRecDepth 40000 in
/-- C8: with `nsamples = 1000`, block size 512, one input and one output
channel, availability always at least a block in both directions and a
healthy status, the loop issues exactly two bulk transfers per direction:
output transfers of 512 then 488 samples, and two input transfers of one
full block (512) each. -/
theorem readWrite_example_two_blocks :
    fifoCalls .output
        (IOBridge.ReadWrite ⟨1, 1⟩ [(⟨0, 1, 0⟩, List.replicate 1000 0)]
          [⟨0, 0, 0⟩] 1000 (fun _ => steadyEnv [600] [100000] 0 0) 3).2 =
      [.fifoTransferCall .output [512], .fifoTransferCall .output [488]] ∧
    fifoCalls .input
        (IOBridge.ReadWrite ⟨1, 1⟩ [(⟨0, 1, 0⟩, List.replicate 1000 0)]
          [⟨0, 0, 0⟩] 1000 (fun _ => steadyEnv [600] [100000] 0 0) 3).2 =
      [.fifoTransferCall .input [512], .fifoTransferCall .input [512]] := by
  decide

set_option maxRecDepth 40000 in
/-- C1 counterexample: a validated call with `nsamples = 513` and one
output channel whose FIFO always has space ends with `nOut = 1024`, which
exceeds `nsamples` (and the output buffer length 513) after the final
increment — refuting the claim that the counters never exceed `nsamples`. -/
theorem readWrite_counter_nOut_exceeds_nsamples :
    (IOBridge.ReadWrite ⟨1, 1⟩ [(⟨0, 1, 0⟩, List.replicate 513 0)] [] 513
        (fun _ => steadyEnv [] [100000] 0 0) 3).1 = .ok [] [] 0 1024 ∧
    513 < 1024 := by
  decide

/-- C3 counterexample: an input channel whose `Samples` field is 3 at call
entry, with cancellation already signaled at the first poll, yields a
normal return whose sequence for that channel has length 3, not zero —
refuting the claim that cancellation before the first iteration returns
zero samples for every requested input channel. -/
theorem readWrite_counter_cancel_entry_samples :
    (IOBridge.ReadWrite ⟨1, 1⟩ [] [⟨0, 0, 3⟩] 4 (fun _ => cancelledEnv) 2).1 =
      .ok [(⟨0, 0, 3⟩, [0, 0, 0])] [⟨0, 0, 3⟩] 0 0 ∧
    ([(0 : Int), 0, 0].length = 0 → False) := by
  decide

/-- C5 counterexample: every availability query (`ITC_GetDataAvailable`)
returns vendor code 7 ≠ `ACQ_SUCCESS`, yet the call returns normally
instead of raising an exception wrapping that code — refuting the claim
that non-success availability-query codes abort `ReadWrite`. -/
theorem readWrite_counter_avail_error_ignored :
    (IOBridge.ReadWrite ⟨1, 1⟩ [(⟨0, 1, 0⟩, [0, 0, 0, 0])] [] 4
        (fun _ => steadyEnv [] [100000] 7 7) 2).1 = .ok [] [] 0 4 ∧
    (steadyEnv [] [100000] 7 7).outAvailErr = 7 ∧ (7 : Int) ≠ ACQ_SUCCESS := by
  decide

/-- C6 counterexample: a call whose output channel count equals the device
family capacity `ITC00_NUMBEROFOUTPUTS` (16) — which the claim says must
pass the capacity precondition — is rejected with the capacity validation
error, because the source tests `count >= ITC00_NUMBEROFOUTPUTS`. -/
theorem readWrite_counter_capacity_equal_rejected :
    ((List.range 16).map fun i =>
        ((⟨i, 1, 0⟩ : ChannelIdentifier), ([] : List Int))).length =
      ITC00_NUMBEROFOUTPUTS ∧
    (IOBridge.ReadWrite ⟨99, 99⟩
        ((List.range 16).map fun i =>
          ((⟨i, 1, 0⟩ : ChannelIdentifier), ([] : List Int)))
        [] 0 (fun _ => cancelledEnv) 1).1 =
      .err (.validation .tooManyOutputChannels) := by
  decide

/-- The loop state after `k` completed iterations (absorbing: once the
loop stops — guard false, cancellation, or exception — the state stays). -/
def loopStates (P : LoopParams) (envs : Nat → IterEnv) (s0 : LoopState) : Nat → LoopState
  | 0 => s0
  | k + 1 =>
    if loopGuard P (loopStates P envs s0 k) then
      match loopStep P (envs k) (loopStates P envs s0 k) with
      | .stepped s2 _ => s2
      | _ => loopStates P envs s0 k
    else loopStates P envs s0 k

/-- One absorbing step of the iterated loop: either the state is unchanged
(loop already stopped, cancellation, or exception) or it is the state of a
completed iteration. -/
theorem loopStates_succ_cases (P : LoopParams) (envs : Nat → IterEnv)
    (s0 : LoopState) (k : Nat) :
    loopStates P envs s0 (k + 1) = loopStates P envs s0 k ∨
    (loopGuard P (loopStates P envs s0 k) ∧
     ∃ evs, loopStep P (envs k) (loopStates P envs s0 k) =
       .stepped (loopStates P envs s0 (k + 1)) evs) := by
  rw [loopStates]
  by_cases hg : loopGuard P (loopStates P envs s0 k)
  · rw [if_pos hg]
    cases hstep : loopStep P (envs k) (loopStates P envs s0 k) with
    | stopCancel => exact Or.inl rfl
    | stopErr e evs => exact Or.inl rfl
    | stepped s2 evs => exact Or.inr ⟨hg, evs, rfl⟩
  · rw [if_neg hg]
    exact Or.inl rfl

/-- Counter bounds invariant of the iterated loop. -/
theorem loopStates_bounds (P : LoopParams) (envs : Nat → IterEnv) (s0 : LoopState)
    (h0In : s0.nIn = 0) (h0Out : s0.nOut = 0) (k : Nat) :
    (loopStates P envs s0 k).nOut ≤ P.nsamples - 1 + P.transferBlock ∧
    (P.outLens.length = 0 →
      (loopStates P envs s0 k).nIn ≤ P.nsamples - 1 + P.transferBlock) := by
  induction k with
  | zero =>
    rw [loopStates]
    constructor
    · rw [h0Out]
      omega
    · intro _
      rw [h0In]
      omega
  | succ k ih =>
    rcases loopStates_succ_cases P envs s0 k with heq | ⟨hg, evs, hstep⟩
    · rw [heq]
      exact ih
    · obtain ⟨_, _, hnIn, hnOut, _⟩ :=
        loopStep_stepped_spec P (envs k) (loopStates P envs s0 k) _ evs hstep
      constructor
      · rcases hnOut with h | ⟨hlt, heq⟩
        · rw [h]
          exact ih.1
        · rw [heq]
          omega
      · intro hout
        have hguard2 : (loopStates P envs s0 k).nIn < P.nsamples := by
          rcases hg with ⟨_, hpos⟩ | ⟨hlt, _⟩
          · omega
          · exact hlt
        rcases hnIn with h | h <;> rw [h] <;> omega

/-- C1 (amended): across every loop iteration `nIn` and `nOut` are
non-decreasing; `nOut` never exceeds `nsamples - 1 + transferBlock` (so it
can overshoot `nsamples`, and the output buffer length, by up to one block
after the final increment, but no further); `nIn` obeys the same bound
whenever no output channels are requested (with output channels pending,
`nIn` can keep advancing in whole blocks past `nsamples`). -/
theorem loop_counters_monotone_bounded (P : LoopParams) (envs : Nat → IterEnv)
    (s0 : LoopState) (h0In : s0.nIn = 0) (h0Out : s0.nOut = 0) (k : Nat) :
    (loopStates P envs s0 k).nIn ≤ (loopStates P envs s0 (k + 1)).nIn ∧
    (loopStates P envs s0 k).nOut ≤ (loopStates P envs s0 (k + 1)).nOut ∧
    (loopStates P envs s0 k).nOut ≤ P.nsamples - 1 + P.transferBlock ∧
    (P.outLens.length = 0 →
      (loopStates P envs s0 k).nIn ≤ P.nsamples - 1 + P.transferBlock) := by
  obtain ⟨hb1, hb2⟩ := loopStates_bounds P envs s0 h0In h0Out k
  refine ⟨?_, ?_, hb1, hb2⟩ <;>
  · rcases loopStates_succ_cases P envs s0 k with heq | ⟨hg, evs, hstep⟩
    · rw [heq]
    · obtain ⟨_, _, hnIn, hnOut, _⟩ :=
        loopStep_stepped_spec P (envs k) (loopStates P envs s0 k) _ evs hstep
      first
      | (rcases hnIn with h | h <;> omega)
      | (rcases hnOut with h | ⟨_, h⟩ <;> omega)

/-- Concrete instantiation of `loop_counters_monotone_bounded`. -/
theorem loop_counters_monotone_bounded_witness :
    (loopStates ⟨4, 4, [4]⟩ (fun _ => cancelledEnv) ⟨0, 0, [], []⟩ 0).nIn ≤
      (loopStates ⟨4, 4, [4]⟩ (fun _ => cancelledEnv) ⟨0, 0, [], []⟩ 1).nIn ∧
    (loopStates ⟨4, 4, [4]⟩ (fun _ => cancelledEnv) ⟨0, 0, [], []⟩ 0).nOut ≤
      (loopStates ⟨4, 4, [4]⟩ (fun _ => cancelledEnv) ⟨0, 0, [], []⟩ 1).nOut ∧
    (loopStates ⟨4, 4, [4]⟩ (fun _ => cancelledEnv) ⟨0, 0, [], []⟩ 0).nOut ≤
      4 - 1 + 4 ∧
    (([4] : List Nat).length = 0 →
      (loopStates ⟨4, 4, [4]⟩ (fun _ => cancelledEnv) ⟨0, 0, [], []⟩ 0).nIn ≤
        4 - 1 + 4) :=
  loop_counters_monotone_bounded ⟨4, 4, [4]⟩ (fun _ => cancelledEnv)
    ⟨0, 0, [], []⟩ rfl rfl 0

/-- A succeeding output bulk transfer can never abort the output half. -/
theorem outputPhase_stepped_of_ok (P : LoopParams) (env : IterEnv) (s : LoopState)
    (evs : List Event) (hok : env.outFifoErr = ACQ_SUCCESS) :
    ∃ s2 evs2, outputPhase P env s evs = .stepped s2 evs2 := by
  unfold outputPhase
  split_ifs with h1 h2 <;> exact ⟨_, _, rfl⟩

/-- A failing output bulk transfer aborts the output half wrapping its
vendor code, when the transfer is actually issued. -/
theorem outputPhase_stopErr_of_err (P : LoopParams) (env : IterEnv) (s : LoopState)
    (evs : List Event) (hav : outBlockAvailable P env = true)
    (hlt : s.nOut < P.nsamples) (herr : env.outFifoErr ≠ ACQ_SUCCESS) :
    ∃ evs2, outputPhase P env s evs =
      .stopErr (.daqErr .readWriteFIFO env.outFifoErr) evs2 := by
  unfold outputPhase
  rw [if_pos hav, if_pos hlt, if_neg herr]
  exact ⟨_, rfl⟩

/-- C5 (amended): within one loop iteration that is not cancelled, whose
status fetch succeeds and whose status is not fatal: the iteration aborts
with an exception wrapping a vendor code exactly from a failing bulk
transfer (`ITC_ReadWriteFIFO`) — an issued input transfer with non-success
code, or a reached output transfer with non-success code — while the
availability queries' (`ITC_GetDataAvailable`) return codes are ignored:
with both transfer codes successful the iteration completes no matter what
the availability queries returned. -/
theorem loopStep_transfer_error_classification (P : LoopParams) (env : IterEnv)
    (s : LoopState) (hnc : env.cancelled = false)
    (hge : env.getStateErr = ACQ_SUCCESS) (hok : ¬ statusFatal env.status) :
    (env.inFifoErr = ACQ_SUCCESS → env.outFifoErr = ACQ_SUCCESS →
      ∃ s2 evs, loopStep P env s = .stepped s2 evs) ∧
    (inBlockAvailable P env s.input.length = true →
      env.inFifoErr ≠ ACQ_SUCCESS →
      ∃ evs, loopStep P env s = .stopErr (.daqErr .readWriteFIFO env.inFifoErr) evs) ∧
    (env.inFifoErr = ACQ_SUCCESS → outBlockAvailable P env = true →
      s.nOut < P.nsamples → env.outFifoErr ≠ ACQ_SUCCESS →
      ∃ evs, loopStep P env s = .stopErr (.daqErr .readWriteFIFO env.outFifoErr) evs) := by
  unfold loopStep
  rw [if_neg (by simp [hnc]), if_neg (by simp [hge]), if_neg hok]
  refine ⟨?_, ?_, ?_⟩
  · intro hin hout
    split_ifs with h1 <;> exact outputPhase_stepped_of_ok P env _ _ hout
  · intro hav herr
    rw [if_pos hav, if_neg herr]
    exact ⟨_, rfl⟩
  · intro hin hav hlt herr
    split_ifs with h1 <;> exact outputPhase_stopErr_of_err P env _ _ hav hlt herr

/-- Concrete instantiation of `loopStep_transfer_error_classification`:
both availability queries return code 3, yet the iteration completes. -/
theorem loopStep_transfer_error_classification_witness :
    ∃ s2 evs, loopStep ⟨0, 0, []⟩ (steadyEnv [] [] 3 3) ⟨0, 0, [], []⟩ =
      .stepped s2 evs :=
  (loopStep_transfer_error_classification ⟨0, 0, []⟩ (steadyEnv [] [] 3 3)
    ⟨0, 0, [], []⟩ rfl rfl (by decide)).1 rfl rfl

/-- A validation exception surfaces from `ReadWrite` exactly as reported by
the validation prefix; the loop itself never produces one. -/
theorem readWrite_validation_iff (b : IOBridge)
    (output : List (ChannelIdentifier × List Int)) (input : List ChannelIdentifier)
    (nsamples : Int) (envs : Nat → IterEnv) (fuel : Nat) (v : ValidationKind) :
    (IOBridge.ReadWrite b output input nsamples envs fuel).1 =
        .err (.validation v) ↔
      validateReadWrite b output input nsamples = some v := by
  unfold IOBridge.ReadWrite
  cases hval : validateReadWrite b output input nsamples with
  | some k => simp
  | none =>
    rcases hrun : runLoop (mkLoopParams output nsamples) envs fuel 0
        (mkInitState input nsamples) with ⟨o, s2, tr⟩
    cases o with
    | done => simp [finishReadWrite]
    | cancelled => simp [finishReadWrite]
    | outOfFuel => simp [finishReadWrite]
    | errored e =>
      constructor
      · intro hc
        have he : e = .validation v := by simpa [finishReadWrite] using hc
        exact absurd he
          (runLoop_not_validation (mkLoopParams output nsamples) envs fuel 0
            (mkInitState input nsamples) e s2 tr hrun v)
      · intro hc
        exact Option.noConfusion hc

/-- C6 (amended): for a call with `nsamples ≥ 0`, the output-capacity
validation error is raised if and only if the output channel count is at
least `ITC00_NUMBEROFOUTPUTS` — a count equal to the family capacity is
already rejected — and the input-capacity error is raised if and only if
the output count passes and the input channel count is at least
`ITC00_NUMBEROFINPUTS`. -/
theorem readWrite_capacity_error_iff (b : IOBridge)
    (output : List (ChannelIdentifier × List Int)) (input : List ChannelIdentifier)
    (nsamples : Int) (envs : Nat → IterEnv) (fuel : Nat) (h0 : 0 ≤ nsamples) :
    ((IOBridge.ReadWrite b output input nsamples envs fuel).1 =
        .err (.validation .tooManyOutputChannels) ↔
      ITC00_NUMBEROFOUTPUTS ≤ output.length) ∧
    ((IOBridge.ReadWrite b output input nsamples envs fuel).1 =
        .err (.validation .tooManyInputChannels) ↔
      (output.length < ITC00_NUMBEROFOUTPUTS ∧
       ITC00_NUMBEROFINPUTS ≤ input.length)) := by
  rw [readWrite_validation_iff, readWrite_validation_iff]
  unfold validateReadWrite
  rw [if_neg (by omega)]
  constructor
  · by_cases h1 : ITC00_NUMBEROFOUTPUTS ≤ output.length
    · rw [if_pos h1]
      simp [h1]
    · rw [if_neg h1]
      split_ifs <;> simp [h1]
  · by_cases h1 : ITC00_NUMBEROFOUTPUTS ≤ output.length
    · rw [if_pos h1]
      constructor
      · intro hc
        cases hc
      · intro hc
        omega
    · rw [if_neg h1]
      by_cases h2 : ITC00_NUMBEROFINPUTS ≤ input.length
      · rw [if_pos h2]
        simp [h2]
        omega
      · rw [if_neg h2]
        split_ifs <;> simp <;> omega

/-- Concrete instantiation of `readWrite_capacity_error_iff` at an empty
request. -/
theorem readWrite_capacity_error_iff_witness :
    ((IOBridge.ReadWrite ⟨1, 1⟩ [] [] 0 (fun _ => cancelledEnv) 1).1 =
        .err (.validation .tooManyOutputChannels) ↔
      ITC00_NUMBEROFOUTPUTS ≤ ([] : List (ChannelIdentifier × List Int)).length) ∧
    ((IOBridge.ReadWrite ⟨1, 1⟩ [] [] 0 (fun _ => cancelledEnv) 1).1 =
        .err (.validation .tooManyInputChannels) ↔
      (([] : List (ChannelIdentifier × List Int)).length < ITC00_NUMBEROFOUTPUTS ∧
       ITC00_NUMBEROFINPUTS ≤ ([] : List ChannelIdentifier).length)) :=
  readWrite_capacity_error_iff ⟨1, 1⟩ [] [] 0 (fun _ => cancelledEnv) 1 (by decide)

theorem Equals_congr_right (x a b : ChannelIdentifier)
    (hn : a.ChannelNumber = b.ChannelNumber) (ht : a.ChannelType = b.ChannelType) :
    x.Equals a = x.Equals b := by
  unfold ChannelIdentifier.Equals
  rw [hn, ht]

theorem Equals_rfl (a : ChannelIdentifier) : a.Equals a = true := by
  simp [ChannelIdentifier.Equals]

/-- Pairwise distinctness under `Equals` transfers along any list with the
same length and the same channel numbers and types position by position. -/
theorem pairwise_equals_of_ids (l1 l2 : List ChannelIdentifier)
    (hlen : l2.length = l1.length)
    (hids : ∀ i, (l2.getD i cdef).ChannelNumber = (l1.getD i cdef).ChannelNumber ∧
                 (l2.getD i cdef).ChannelType = (l1.getD i cdef).ChannelType)
    (h : l1.Pairwise fun a b => a.Equals b = false) :
    l2.Pairwise fun a b => a.Equals b = false := by
  rw [List.pairwise_iff_getElem] at h ⊢
  intro i j hi hj hij
  have hi1 : i < l1.length := by omega
  have hj1 : j < l1.length := by omega
  have key : (l2.getD i cdef).Equals (l2.getD j cdef) =
      (l1.getD i cdef).Equals (l1.getD j cdef) := by
    rw [Equals_congr_left _ _ _ (hids i).1 (hids i).2,
        Equals_congr_right _ _ _ (hids j).1 (hids j).2]
  rw [← List.getD_eq_getElem l2 cdef hi, ← List.getD_eq_getElem l2 cdef hj, key,
    List.getD_eq_getElem l1 cdef hi1, List.getD_eq_getElem l1 cdef hj1]
  exact h i j hi1 hj1 hij

/-- Any entry of a dictionary after a set is an old entry or holds the new
value. -/
theorem dictSet_values (d : List (ChannelIdentifier × List Int))
    (k : ChannelIdentifier) (v : List Int) (p : ChannelIdentifier × List Int)
    (hp : p ∈ dictSet d k v) : p ∈ d ∨ p.2 = v := by
  induction d with
  | nil =>
    simp [dictSet] at hp
    rw [hp]
    exact Or.inr rfl
  | cons q rest ih =>
    obtain ⟨k0, v0⟩ := q
    by_cases he : k0.Equals k
    · simp only [dictSet, he, if_pos] at hp
      rcases List.mem_cons.mp hp with h | h
      · rw [h]
        exact Or.inr rfl
      · exact Or.inl (List.mem_cons_of_mem _ h)
    · simp only [dictSet, he, Bool.false_eq_true, if_false] at hp
      rcases List.mem_cons.mp hp with h | h
      · rw [h]
        exact Or.inl (List.mem_cons_self _ _)
      · rcases ih h with h2 | h2
        · exact Or.inl (List.mem_cons_of_mem _ h2)
        · exact Or.inr h2

/-- Every value in the result dictionary has the length of some requested
channel's final `Samples` count. -/
theorem buildResult_values (cs : List ChannelIdentifier) (bs : List (List Int))
    (acc : List (ChannelIdentifier × List Int)) (p : ChannelIdentifier × List Int)
    (hp : p ∈ buildResult cs bs acc) :
    p ∈ acc ∨ ∃ c ∈ cs, p.2.length = c.Samples.toNat := by
  induction cs generalizing bs acc with
  | nil =>
    cases bs with
    | nil => exact Or.inl (by simpa [buildResult] using hp)
    | cons b bs => exact Or.inl (by simpa [buildResult] using hp)
  | cons c cs ih =>
    have hstep : ∀ (b : List Int) (bs2 : List (List Int)),
        p ∈ buildResult cs bs2 (dictSet acc c (readOut b c.Samples.toNat)) →
        p ∈ acc ∨ ∃ c2 ∈ c :: cs, p.2.length = c2.Samples.toNat := by
      intro b bs2 hp2
      rcases ih bs2 (dictSet acc c (readOut b c.Samples.toNat)) hp2 with h | ⟨c2, hc2, hl⟩
      · rcases dictSet_values acc c (readOut b c.Samples.toNat) p h with h2 | h2
        · exact Or.inl h2
        · exact Or.inr ⟨c, List.mem_cons_self _ _, by rw [h2, readOut_length]⟩
      · exact Or.inr ⟨c2, List.mem_cons_of_mem _ hc2, hl⟩
    cases bs with
    | nil => exact hstep [] [] (by simpa [buildResult] using hp)
    | cons b bs => exact hstep b bs (by simpa [buildResult] using hp)

/-- With a false guard and positive fuel the loop terminates at once. -/
theorem runLoop_done_of_guard_false (P : LoopParams) (envs : Nat → IterEnv)
    (fuel k : Nat) (s : LoopState) (hg : ¬ loopGuard P s) (hf : 0 < fuel) :
    runLoop P envs fuel k s = (.done, s, []) := by
  obtain ⟨m, rfl⟩ : ∃ m, fuel = m + 1 := ⟨fuel - 1, by omega⟩
  rw [runLoop, if_neg hg]

/-- With cancellation observed at the first poll the loop stops at once,
moving nothing. -/
theorem runLoop_cancelled_of_first (P : LoopParams) (envs : Nat → IterEnv)
    (fuel : Nat) (s : LoopState) (hg : loopGuard P s)
    (hc : (envs 0).cancelled = true) (hf : 0 < fuel) :
    runLoop P envs fuel 0 s = (.cancelled, s, []) := by
  obtain ⟨m, rfl⟩ : ∃ m, fuel = m + 1 := ⟨fuel - 1, by omega⟩
  rw [runLoop, if_pos hg, (loopStep_stopCancel_iff P (envs 0) s).mpr hc]

/-- Dissection of every normal return of `ReadWrite` (for pairwise-distinct
requested channels): the final input list matches the request position by
position with `Samples` grown by exactly the trace's input transfers, and
the result dictionary lists, in order, each final channel paired with a
sequence of exactly its final `Samples` count. -/
theorem readWrite_ok_master (b : IOBridge)
    (output : List (ChannelIdentifier × List Int)) (input : List ChannelIdentifier)
    (nsamples : Int) (envs : Nat → IterEnv) (fuel : Nat)
    (hval : validateReadWrite b output input nsamples = none)
    (hdist : input.Pairwise fun a b => a.Equals b = false)
    (res : List (ChannelIdentifier × List Int)) (fin : List ChannelIdentifier)
    (nIn2 nOut2 : Nat) (tr : List Event)
    (hok : IOBridge.ReadWrite b output input nsamples envs fuel =
      (.ok res fin nIn2 nOut2, tr)) :
    fin.length = input.length ∧
    res.length = input.length ∧
    (∀ i, (fin.getD i cdef).ChannelNumber = (input.getD i cdef).ChannelNumber ∧
          (fin.getD i cdef).ChannelType = (input.getD i cdef).ChannelType) ∧
    (∀ i, (fin.getD i cdef).Samples =
          (input.getD i cdef).Samples + (movedOf tr i : Int)) ∧
    (∀ i, i < input.length →
      (res.getD i (cdef, [])).1 = fin.getD i cdef ∧
      (res.getD i (cdef, [])).2.length = (fin.getD i cdef).Samples.toNat) := by
  unfold IOBridge.ReadWrite at hok
  rw [hval] at hok
  rcases hrun : runLoop (mkLoopParams output nsamples) envs fuel 0
      (mkInitState input nsamples) with ⟨o, s2, tr2⟩
  rw [hrun] at hok
  obtain ⟨hlen, hscr, hids, hacc⟩ :=
    runLoop_spec (mkLoopParams output nsamples) envs fuel 0
      (mkInitState input nsamples) o s2 tr2 hrun
  simp only [mkInitState, List.length_map] at hlen hscr hids hacc
  have hfinish : ∀ (hne : ∀ e, o ≠ .errored e),
      res = buildResult s2.input s2.inputSamples [] ∧ fin = s2.input ∧ tr = tr2 := by
    intro hne
    cases o with
    | outOfFuel => simp [finishReadWrite] at hok
    | errored e => exact absurd rfl (hne e)
    | cancelled =>
      simp only [finishReadWrite, Prod.mk.injEq, RWOutcome.ok.injEq] at hok
      exact ⟨hok.1.1.symm, hok.1.2.1.symm, hok.2.symm⟩
    | done =>
      simp only [finishReadWrite, Prod.mk.injEq, RWOutcome.ok.injEq] at hok
      exact ⟨hok.1.1.symm, hok.1.2.1.symm, hok.2.symm⟩
  have hne : ∀ e, o ≠ .errored e := by
    intro e hco
    rw [hco] at hok
    simp [finishReadWrite] at hok
  obtain ⟨hres, hfin, htr⟩ := hfinish hne
  have hdist2 : s2.input.Pairwise fun a b => a.Equals b = false :=
    pairwise_equals_of_ids input s2.input hlen (fun i => hids i) hdist
  have hscr2 : s2.inputSamples.length = s2.input.length := by omega
  have hbuild := buildResult_append s2.input s2.inputSamples [] hdist2 hscr2
    (fun c _ p hp => absurd hp (List.not_mem_nil p))
  rw [List.nil_append] at hbuild
  refine ⟨by rw [hfin]; exact hlen, ?_, by rw [hfin]; exact hids, ?_, ?_⟩
  · rw [hres, hbuild, zipmap_length s2.input s2.inputSamples hscr2, hlen]
  · intro i
    rw [hfin, htr]
    exact hacc hne i
  · intro i hi
    have hi2 : i < s2.input.length := by omega
    rw [hres, hbuild, zipmap_getD s2.input s2.inputSamples i hi2 hscr2, hfin]
    exact ⟨rfl, readOut_length _ _⟩

/-- C3 (amended): for a validated call whose requested input channels all
enter with `Samples = 0` (and are pairwise distinct): if cancellation is
observed at the very first poll, `ReadWrite` returns normally with an empty
vendor-call trace and a zero-length sequence for every requested channel;
and on every normal return — in particular after a cancellation with
partial progress — each channel's sequence length equals exactly the
samples moved for it so far by the trace's input transfers, no more and no
fewer.  (Without the `Samples = 0` entry hypothesis the claim fails: see
the counterexample.) -/
theorem readWrite_cancelled_partial_result (b : IOBridge)
    (output : List (ChannelIdentifier × List Int)) (input : List ChannelIdentifier)
    (nsamples : Int) (envs : Nat → IterEnv) (fuel : Nat)
    (hval : validateReadWrite b output input nsamples = none)
    (hzero : ∀ c ∈ input, c.Samples = 0)
    (hdist : input.Pairwise fun a b => a.Equals b = false)
    (hfuel : 0 < fuel) :
    ((envs 0).cancelled = true →
      ∃ res, IOBridge.ReadWrite b output input nsamples envs fuel =
          (.ok res input 0 0, []) ∧ ∀ p ∈ res, p.2.length = 0) ∧
    (∀ res fin nIn2 nOut2 tr,
      IOBridge.ReadWrite b output input nsamples envs fuel =
        (.ok res fin nIn2 nOut2, tr) →
      ∀ i, i < input.length →
        (res.getD i (cdef, [])).2.length = movedOf tr i) := by
  have hrw : IOBridge.ReadWrite b output input nsamples envs fuel =
      finishReadWrite (runLoop (mkLoopParams output nsamples) envs fuel 0
        (mkInitState input nsamples)) := by
    unfold IOBridge.ReadWrite
    rw [hval]
  constructor
  · intro hc
    have hzl : ∀ p ∈ buildResult (mkInitState input nsamples).input
        (mkInitState input nsamples).inputSamples [], p.2.length = 0 := by
      intro p hp
      rcases buildResult_values _ _ [] p hp with h | ⟨c, hcmem, hlenp⟩
      · exact absurd h (List.not_mem_nil p)
      · rw [hlenp, hzero c hcmem]
        rfl
    by_cases hg : loopGuard (mkLoopParams output nsamples) (mkInitState input nsamples)
    · rw [hrw, runLoop_cancelled_of_first _ envs fuel _ hg hc hfuel]
      exact ⟨_, rfl, hzl⟩
    · rw [hrw, runLoop_done_of_guard_false _ envs fuel 0 _ hg hfuel]
      exact ⟨_, rfl, hzl⟩
  · intro res fin nIn2 nOut2 tr hok i hi
    obtain ⟨hfl, hrl, hids, hacc, hres⟩ :=
      readWrite_ok_master b output input nsamples envs fuel hval hdist
        res fin nIn2 nOut2 tr hok
    have h0 : (input.getD i cdef).Samples = 0 := by
      apply hzero
      rw [List.getD_eq_getElem input cdef hi]
      exact List.getElem_mem hi
    rw [(hres i hi).2, hacc i, h0, zero_add, Int.toNat_natCast]

/-- Concrete instantiation of `readWrite_cancelled_partial_result`:
cancellation at the first poll of a one-channel request. -/
theorem readWrite_cancelled_partial_result_witness :
    ∃ res, IOBridge.ReadWrite ⟨1, 1⟩ [] [⟨0, 0, 0⟩] 4 (fun _ => cancelledEnv) 1 =
        (.ok res [⟨0, 0, 0⟩] 0 0, []) ∧ ∀ p ∈ res, p.2.length = 0 :=
  (readWrite_cancelled_partial_result ⟨1, 1⟩ [] [⟨0, 0, 0⟩] 4
    (fun _ => cancelledEnv) 1 (by decide) (by decide) (by decide) (by decide)).1 rfl

/-- C9: `ReadWrite` mutates the caller's input channel list: on every
normal return of a validated call (pairwise-distinct channels, non-negative
entry counts), each entry's `Samples` equals its value at entry plus the
samples the trace's input transfers moved for that channel during this
call, and the returned sequence for the channel has exactly this
accumulated `Samples` length — not merely the samples moved in this call. -/
theorem readWrite_samples_accumulation (b : IOBridge)
    (output : List (ChannelIdentifier × List Int)) (input : List ChannelIdentifier)
    (nsamples : Int) (envs : Nat → IterEnv) (fuel : Nat)
    (hval : validateReadWrite b output input nsamples = none)
    (hpos : ∀ c ∈ input, 0 ≤ c.Samples)
    (hdist : input.Pairwise fun a b => a.Equals b = false) :
    ∀ res fin nIn2 nOut2 tr,
      IOBridge.ReadWrite b output input nsamples envs fuel =
        (.ok res fin nIn2 nOut2, tr) →
      fin.length = input.length ∧
      ∀ i, i < input.length →
        (fin.getD i cdef).Samples =
          (input.getD i cdef).Samples + (movedOf tr i : Int) ∧
        ((res.getD i (cdef, [])).2.length : Int) = (fin.getD i cdef).Samples := by
  intro res fin nIn2 nOut2 tr hok
  obtain ⟨hfl, hrl, hids, hacc, hres⟩ :=
    readWrite_ok_master b output input nsamples envs fuel hval hdist
      res fin nIn2 nOut2 tr hok
  refine ⟨hfl, fun i hi => ⟨hacc i, ?_⟩⟩
  have hin : 0 ≤ (input.getD i cdef).Samples := by
    apply hpos
    rw [List.getD_eq_getElem input cdef hi]
    exact List.getElem_mem hi
  have hnn : 0 ≤ (fin.getD i cdef).Samples := by
    rw [hacc i]
    have := Int.natCast_nonneg (movedOf tr i)
    omega
  rw [(hres i hi).2, Int.toNat_of_nonneg hnn]

/-- Concrete instantiation of `readWrite_samples_accumulation`: one channel
entering with `Samples = 3`, cancelled before any transfer. -/
theorem readWrite_samples_accumulation_witness :
    ([⟨0, 0, 3⟩] : List ChannelIdentifier).length =
      ([⟨0, 0, 3⟩] : List ChannelIdentifier).length ∧
    ∀ i, i < ([⟨0, 0, 3⟩] : List ChannelIdentifier).length →
      (([⟨0, 0, 3⟩] : List ChannelIdentifier).getD i cdef).Samples =
        (([⟨0, 0, 3⟩] : List ChannelIdentifier).getD i cdef).Samples +
          (movedOf [] i : Int) ∧
      (([(⟨0, 0, 3⟩, ([0, 0, 0] : List Int))].getD i (cdef, [])).2.length : Int) =
        (([⟨0, 0, 3⟩] : List ChannelIdentifier).getD i cdef).Samples :=
  readWrite_samples_accumulation ⟨1, 1⟩ [] [⟨0, 0, 3⟩] 4 (fun _ => cancelledEnv) 2
    (by decide) (by decide) (by decide)
    [(⟨0, 0, 3⟩, [0, 0, 0])] [⟨0, 0, 3⟩] 0 0 [] (by decide)

/-- C4: on every normal return of a validated call (pairwise-distinct
channels, non-negative entry counts), the result's key set equals exactly
the requested input channel identifiers under the `(number, type)`-only
equality, and each channel's sequence has length exactly its final running
`Samples` count — never the scratch capacity. -/
theorem readWrite_result_keys_lengths (b : IOBridge)
    (output : List (ChannelIdentifier × List Int)) (input : List ChannelIdentifier)
    (nsamples : Int) (envs : Nat → IterEnv) (fuel : Nat)
    (hval : validateReadWrite b output input nsamples = none)
    (hpos : ∀ c ∈ input, 0 ≤ c.Samples)
    (hdist : input.Pairwise fun a b => a.Equals b = false) :
    ∀ res fin nIn2 nOut2 tr,
      IOBridge.ReadWrite b output input nsamples envs fuel =
        (.ok res fin nIn2 nOut2, tr) →
      (∀ cid : ChannelIdentifier,
        (∃ p ∈ res, p.1.Equals cid = true) ↔ ∃ c ∈ input, c.Equals cid = true) ∧
      res.length = input.length ∧
      ∀ i, i < input.length →
        (res.getD i (cdef, [])).1.Equals (fin.getD i cdef) = true ∧
        ((res.getD i (cdef, [])).2.length : Int) = (fin.getD i cdef).Samples := by
  intro res fin nIn2 nOut2 tr hok
  obtain ⟨hfl, hrl, hids, hacc, hres⟩ :=
    readWrite_ok_master b output input nsamples envs fuel hval hdist
      res fin nIn2 nOut2 tr hok
  have hkey : ∀ i, i < input.length →
      ∀ cid, (res.getD i (cdef, [])).1.Equals cid = (input.getD i cdef).Equals cid := by
    intro i hi cid
    rw [(hres i hi).1]
    exact Equals_congr_left _ _ cid (hids i).1 (hids i).2
  refine ⟨?_, hrl, ?_⟩
  · intro cid
    constructor
    · rintro ⟨p, hp, hpe⟩
      obtain ⟨j, hj, hpj⟩ := List.mem_iff_getElem.mp hp
      have hj2 : j < input.length := by omega
      have hpd : res.getD j (cdef, []) = p := by
        rw [List.getD_eq_getElem res (cdef, []) hj]
        exact hpj
      refine ⟨input.getD j cdef, ?_, ?_⟩
      · rw [List.getD_eq_getElem input cdef hj2]
        exact List.getElem_mem hj2
      · rw [← hkey j hj2 cid, hpd]
        exact hpe
    · rintro ⟨c, hc, hce⟩
      obtain ⟨j, hj, hcj⟩ := List.mem_iff_getElem.mp hc
      have hj2 : j < res.length := by omega
      refine ⟨res.getD j (cdef, []), ?_, ?_⟩
      · rw [List.getD_eq_getElem res (cdef, []) hj2]
        exact List.getElem_mem hj2
      · rw [hkey j hj cid, List.getD_eq_getElem input cdef hj, hcj]
        exact hce
  · intro i hi
    refine ⟨?_, ?_⟩
    · rw [(hres i hi).1]
      exact Equals_rfl _
    · have hin : 0 ≤ (input.getD i cdef).Samples := by
        apply hpos
        rw [List.getD_eq_getElem input cdef hi]
        exact List.getElem_mem hi
      have hnn : 0 ≤ (fin.getD i cdef).Samples := by
        rw [hacc i]
        have := Int.natCast_nonneg (movedOf tr i)
        omega
      rw [(hres i hi).2, Int.toNat_of_nonneg hnn]

/-- Concrete instantiation of `readWrite_result_keys_lengths`. -/
theorem readWrite_result_keys_lengths_witness :
    (∀ cid : ChannelIdentifier,
      (∃ p ∈ ([(⟨0, 0, 3⟩, [0, 0, 0])] : List (ChannelIdentifier × List Int)),
          p.1.Equals cid = true) ↔
        ∃ c ∈ ([⟨0, 0, 3⟩] : List ChannelIdentifier), c.Equals cid = true) ∧
    ([(⟨0, 0, 3⟩, ([0, 0, 0] : List Int))] :
        List (ChannelIdentifier × List Int)).length =
      ([⟨0, 0, 3⟩] : List ChannelIdentifier).length ∧
    ∀ i, i < ([⟨0, 0, 3⟩] : List ChannelIdentifier).length →
      ([(⟨0, 0, 3⟩, ([0, 0, 0] : List Int))].getD i (cdef, [])).1.Equals
        (([⟨0, 0, 3⟩] : List ChannelIdentifier).getD i cdef) = true ∧
      (([(⟨0, 0, 3⟩, ([0, 0, 0] : List Int))].getD i (cdef, [])).2.length : Int) =
        (([⟨0, 0, 3⟩] : List ChannelIdentifier).getD i cdef).Samples :=
  readWrite_result_keys_lengths ⟨1, 1⟩ [] [⟨0, 0, 3⟩] 4 (fun _ => cancelledEnv) 2
    (by decide) (by decide) (by decide)
    [(⟨0, 0, 3⟩, [0, 0, 0])] [⟨0, 0, 3⟩] 0 0 [] (by decide)

/-- C10: a validated call with `nsamples = 0` (pairwise-distinct channels,
non-negative entry counts) runs zero loop iterations, issues no vendor call
of any kind — the trace is empty: no status query, no clock poll, no
availability query, no transfer — and returns a result mapping each
requested channel to a sequence whose length equals that channel's
`Samples` field at entry. -/
theorem readWrite_zero_nsamples (b : IOBridge)
    (output : List (ChannelIdentifier × List Int)) (input : List ChannelIdentifier)
    (envs : Nat → IterEnv) (fuel : Nat)
    (hval : validateReadWrite b output input 0 = none)
    (hpos : ∀ c ∈ input, 0 ≤ c.Samples)
    (hdist : input.Pairwise fun a b => a.Equals b = false)
    (hfuel : 0 < fuel) :
    ∃ res, IOBridge.ReadWrite b output input 0 envs fuel = (.ok res input 0 0, []) ∧
      res.length = input.length ∧
      ∀ i, i < input.length →
        ((res.getD i (cdef, [])).2.length : Int) = (input.getD i cdef).Samples := by
  have hg : ¬ loopGuard (mkLoopParams output 0) (mkInitState input 0) := by
    simp [loopGuard, mkLoopParams, mkInitState]
  have hrw : IOBridge.ReadWrite b output input 0 envs fuel =
      finishReadWrite (runLoop (mkLoopParams output 0) envs fuel 0
        (mkInitState input 0)) := by
    unfold IOBridge.ReadWrite
    rw [hval]
  rw [hrw, runLoop_done_of_guard_false _ envs fuel 0 _ hg hfuel]
  have hscr : (mkInitState input 0).inputSamples.length =
      (mkInitState input 0).input.length := by
    simp [mkInitState]
  have hbuild := buildResult_append (mkInitState input 0).input
    (mkInitState input 0).inputSamples [] hdist hscr
    (fun c _ p hp => absurd hp (List.not_mem_nil p))
  rw [List.nil_append] at hbuild
  refine ⟨_, rfl, ?_, ?_⟩
  · show (buildResult (mkInitState input 0).input
      (mkInitState input 0).inputSamples []).length = input.length
    rw [hbuild, zipmap_length _ _ hscr]
    simp [mkInitState]
  · intro i hi
    show (((buildResult (mkInitState input 0).input
      (mkInitState input 0).inputSamples []).getD i (cdef, [])).2.length : Int) =
      (input.getD i cdef).Samples
    have hi2 : i < (mkInitState input 0).input.length := by
      simpa [mkInitState] using hi
    rw [hbuild, zipmap_getD _ _ i hi2 hscr, readOut_length]
    have hin : 0 ≤ (input.getD i cdef).Samples := by
      apply hpos
      rw [List.getD_eq_getElem input cdef hi]
      exact List.getElem_mem hi
    exact Int.toNat_of_nonneg hin

/-- Concrete instantiation of `readWrite_zero_nsamples`: one channel
entering with `Samples = 2`. -/
theorem readWrite_zero_nsamples_witness :
    ∃ res, IOBridge.ReadWrite ⟨1, 1⟩ [] [⟨0, 0, 2⟩] 0 (fun _ => cancelledEnv) 1 =
        (.ok res [⟨0, 0, 2⟩] 0 0, []) ∧
      res.length = ([⟨0, 0, 2⟩] : List ChannelIdentifier).length ∧
      ∀ i, i < ([⟨0, 0, 2⟩] : List ChannelIdentifier).length →
        ((res.getD i (cdef, [])).2.length : Int) =
          (([⟨0, 0, 2⟩] : List ChannelIdentifier).getD i cdef).Samples :=
  readWrite_zero_nsamples ⟨1, 1⟩ [] [⟨0, 0, 2⟩] (fun _ => cancelledEnv) 1
    (by decide) (by decide) (by decide) (by decide)

end Heka
